import Mathlib

/-!
# resize_image: a shallow embedding of `server.js` and `public/script.js`

The development follows the two source files of the repository.

* JavaScript numbers are IEEE 754 binary64 values.  A finite value is kept as
  a sign and a natural number of *units*, one unit being `2 ^ (-1074)` (the
  smallest positive double): every finite double is a whole number of units.
  Division, multiplication and the conversion of an integer round to the
  nearest double, ties to even, and overflow to an infinity.
* `parseInt`, the `||` defaulting idiom, the options object handed to
  `sharp().resize`, the encoder selection, the output file name, the multer
  `fileFilter`, the download route and the hourly cleanup are transcribed
  from `server.js`.
* `updateHeightFromWidth`, `updateWidthFromHeight` and
  `updateFormatForTransparency` are transcribed from `public/script.js`.
-/

set_option exponentiation.threshold 5000

namespace ResizeImage

/-! ## JavaScript numbers -/

/-- Binary search for the position of the highest set bit: with `j` steps left
and `2 ^ acc ≤ q` known, decide bit `j - 1` of the exponent. -/
def ilog2Aux (q : Nat) : Nat → Nat → Nat
  | 0, acc => acc
  | j + 1, acc =>
    if 2 ^ (acc + 2 ^ j) ≤ q then ilog2Aux q j (acc + 2 ^ j) else ilog2Aux q j acc

/-- The floor of the binary logarithm, for `0 < q < 2 ^ 4096`. -/
def ilog2 (q : Nat) : Nat := ilog2Aux q 12 0

/-- The integer nearest to `n / d`, a tie going to the even neighbour. -/
def roundHalfEven (n d : Nat) : Nat :=
  let q := n / d
  let r := n % d
  if 2 * r < d then q else if d < 2 * r then q + 1 else if q % 2 = 0 then q else q + 1

/-- One is `2 ^ 1074` units: a unit is the smallest positive double. -/
def unit : Nat := 2 ^ 1074

/-- The first magnitude, in units, that is no longer finite: `2 ^ 1024`. -/
def overflowBound : Nat := 2 ^ 2098

/-- Round the non-negative rational `n / d` (in units) to the nearest double,
ties to even: below `2 ^ 53` units the doubles are the whole numbers of units,
from there on a double has 53 significant bits.  `none` is overflow. -/
def roundToDouble (n d : Nat) : Option Nat :=
  if overflowBound ≤ n / d then none
  else
    let k := ilog2 (n / d) - 52
    let r := roundHalfEven n (d * 2 ^ k) * 2 ^ k
    if overflowBound ≤ r then none else some r

/-- A JavaScript Number: NaN, an infinity, or a finite double given by its sign
and its magnitude in units (`fin true 0` is negative zero). -/
inductive JSNum where
  | nan
  | inf (neg : Bool)
  | fin (neg : Bool) (units : Nat)
  deriving DecidableEq, Repr

namespace JSNum

/-- The Number nearest to `± n / d` units. -/
def ofRatio (neg : Bool) (n d : Nat) : JSNum :=
  match roundToDouble n d with
  | some r => fin neg r
  | none => inf neg

/-- The Number for a non-negative integer (exact below `2 ^ 53`). -/
def ofNat (k : Nat) : JSNum := ofRatio false (k * unit) 1

/-- JavaScript `x / y`. -/
def div : JSNum → JSNum → JSNum
  | nan, _ => nan
  | _, nan => nan
  | inf _, inf _ => nan
  | inf s, fin t _ => inf (xor s t)
  | fin s _, inf t => fin (xor s t) 0
  | fin s a, fin t b =>
    if b = 0 then (if a = 0 then nan else inf (xor s t))
    else ofRatio (xor s t) (a * unit) b

/-- JavaScript `x * y`. -/
def mul : JSNum → JSNum → JSNum
  | nan, _ => nan
  | _, nan => nan
  | inf s, inf t => inf (xor s t)
  | inf s, fin t b => if b = 0 then nan else inf (xor s t)
  | fin s a, inf t => if a = 0 then nan else inf (xor s t)
  | fin s a, fin t b => ofRatio (xor s t) (a * b) unit

/-- ToBoolean on a Number: false for NaN and both zeros. -/
def truthy : JSNum → Bool
  | nan => false
  | inf _ => true
  | fin _ m => m != 0

/-- JavaScript `x || y` for Numbers. -/
def orElse (x y : JSNum) : JSNum := if x.truthy then x else y

end JSNum

/-- `Math.round`: the nearest integer, a tie going towards plus infinity. -/
def mathRound : JSNum → JSNum
  | .nan => .nan
  | .inf s => .inf s
  | .fin false m => .fin false ((2 * m + unit) / (2 * unit) * unit)
  | .fin true m => .fin true ((2 * m + unit - 1) / (2 * unit) * unit)

/-! ## `parseInt` -/

/-- White space that `parseInt` skips at the start (StrWhiteSpaceChar). -/
def isStrWhiteSpaceChar (c : Char) : Bool :=
  let v := c.toNat
  v = 0x09 || v = 0x0A || v = 0x0B || v = 0x0C || v = 0x0D || v = 0x20 || v = 0xA0
    || v = 0x1680 || (0x2000 ≤ v && v ≤ 0x200A) || v = 0x2028 || v = 0x2029
    || v = 0x202F || v = 0x205F || v = 0x3000 || v = 0xFEFF

/-- The value of `c` as a digit of the given radix, if it is one. -/
def digitValue (radix : Nat) (c : Char) : Option Nat :=
  let v := c.toNat
  let d : Option Nat :=
    if 48 ≤ v ∧ v ≤ 57 then some (v - 48)
    else if 97 ≤ v ∧ v ≤ 122 then some (v - 87)
    else if 65 ≤ v ∧ v ≤ 90 then some (v - 55)
    else none
  match d with
  | some x => if x < radix then some x else none
  | none => none

/-- The longest run of radix digits at the start of the text. -/
def takeDigits (radix : Nat) : List Char → List Nat
  | [] => []
  | c :: cs =>
    match digitValue radix c with
    | some v => v :: takeDigits radix cs
    | none => []

/-- The integer written by a list of digits. -/
def digitsValue (radix : Nat) (ds : List Nat) : Nat :=
  ds.foldl (fun acc v => acc * radix + v) 0

/-- An optional sign at the start of the text. -/
def splitSign : List Char → Bool × List Char
  | '-' :: r => (true, r)
  | '+' :: r => (false, r)
  | s => (false, s)

/-- A `0x` or `0X` start selects radix 16, otherwise the radix is 10. -/
def splitRadix : List Char → Nat × List Char
  | '0' :: 'x' :: r => (16, r)
  | '0' :: 'X' :: r => (16, r)
  | s => (10, s)

/-- `parseInt(text)` with no radix argument. -/
def parseInt (text : List Char) : JSNum :=
  let s := text.dropWhile isStrWhiteSpaceChar
  let signed := splitSign s
  let based := splitRadix signed.2
  let ds := takeDigits based.1 based.2
  if ds = [] then JSNum.nan else JSNum.ofRatio signed.1 (digitsValue based.1 ds * unit) 1

/-- A form field of `req.body`: `none` is `undefined`, and `parseInt` first
turns its argument into a string. -/
def parseIntField : Option String → JSNum
  | none => parseInt "undefined".toList
  | some s => parseInt s.toList

/-! ## `POST /resize` -/

/-- The text fields of the multipart form, as destructured from `req.body`. -/
structure ResizeBody where
  width : Option String
  height : Option String
  quality : Option String
  format : Option String
  maintainAspectRatio : Option String
  transparentBackground : Option String
  deriving DecidableEq, Repr

/-- A value stored under a key of the options object. -/
inductive OptValue where
  | null
  | num (x : JSNum)
  | str (s : String)
  | bool (b : Bool)
  deriving DecidableEq, Repr

/-- `parseInt(field) || null`. -/
def parseIntOrNull (field : Option String) : OptValue :=
  let x := parseIntField field
  if x.truthy then OptValue.num x else OptValue.null

/-- The object literal assigned to `resizeOptions`, keys in source order. -/
def initialResizeOptions (body : ResizeBody) : List (String × OptValue) :=
  if body.maintainAspectRatio = some "true" then
    [("width", parseIntOrNull body.width), ("height", parseIntOrNull body.height),
      ("fit", OptValue.str "inside"), ("withoutEnlargement", OptValue.bool true)]
  else
    [("width", parseIntOrNull body.width), ("height", parseIntOrNull body.height),
      ("fit", OptValue.str "fill")]

/-- The loop that deletes every key whose value is `null`. -/
def removeNullValues (opts : List (String × OptValue)) : List (String × OptValue) :=
  opts.filter (fun kv => kv.2 != OptValue.null)

/-- The options object passed to `sharp(...).resize`. -/
def resizeOptions (body : ResizeBody) : List (String × OptValue) :=
  removeNullValues (initialResizeOptions body)

/-- The value under a key of an options object, `none` when the key is absent. -/
def lookupKey (key : String) (opts : List (String × OptValue)) : Option OptValue :=
  (opts.find? (fun kv => kv.1 == key)).map (fun kv => kv.2)

/-- An explicit output encoder call on the sharp pipeline, with the quality
option when the call passes one. -/
inductive Encoder where
  | jpeg (quality : JSNum)
  | png (quality : Option JSNum)
  | webp (quality : JSNum)
  | gif
  deriving DecidableEq, Repr

/-- `parseInt(quality) || 80`. -/
def qualityOrDefault (quality : Option String) : JSNum :=
  (parseIntField quality).orElse (JSNum.ofNat 80)

/-- The quality option an encoder call passes, if it passes one. -/
def Encoder.quality? : Encoder → Option JSNum
  | Encoder.jpeg q => some q
  | Encoder.png q => q
  | Encoder.webp q => some q
  | Encoder.gif => none

/-- The encoder call of the branch without transparency; `none` when the
format matches no case, so that no encoder call is made. -/
def formatEncoder (body : ResizeBody) : Option Encoder :=
  if body.format = some "jpeg" ∨ body.format = some "jpg" then
    some (Encoder.jpeg (qualityOrDefault body.quality))
  else if body.format = some "png" then
    some (Encoder.png (some (qualityOrDefault body.quality)))
  else if body.format = some "webp" then
    some (Encoder.webp (qualityOrDefault body.quality))
  else if body.format = some "gif" then
    some Encoder.gif
  else none

/-- An operation chained on a sharp instance, as far as the handler uses them. -/
inductive SharpOp where
  | resize (opts : List (String × OptValue))
  | grayscale
  | threshold (level : Nat)
  | negate
  | ensureAlpha
  | encode (e : Encoder)
  deriving DecidableEq, Repr

/-- What the handler builds before `toFile`: the operations on
`sharp(req.file.path)`, the operations of the second `sharp(req.file.path)`
whose buffer is composited with blend `dest-in` (when transparency is asked
for), and the last explicit encoder call. -/
structure ResizePlan where
  base : List SharpOp
  mask : Option (List SharpOp)
  encoder : Option Encoder
  deriving DecidableEq, Repr

/-- The pipeline that produces the mask buffer. -/
def maskOps : List SharpOp :=
  [SharpOp.grayscale, SharpOp.threshold 240, SharpOp.negate, SharpOp.encode (Encoder.png none)]

/-- The sharp pipeline of the `/resize` handler. -/
def resizePlan (body : ResizeBody) : ResizePlan :=
  if body.transparentBackground = some "true" then
    { base := [SharpOp.resize (resizeOptions body), SharpOp.ensureAlpha],
      mask := some maskOps,
      encoder := some (Encoder.png none) }
  else
    { base := [SharpOp.resize (resizeOptions body)],
      mask := none,
      encoder := formatEncoder body }

/-- `format || 'jpeg'`: `undefined` and the empty string are falsy. -/
def formatOrDefault : Option String → String
  | none => "jpeg"
  | some f => if f = "" then "jpeg" else f

/-- The name of the processed file; `now` is `Date.now()` in milliseconds. -/
def outputFilename (now : Nat) (body : ResizeBody) : String :=
  "resized-" ++ toString now ++ "." ++ formatOrDefault body.format

/-! ## Image dimensions -/

/-- Pixel dimensions of an image. -/
structure Dimensions where
  width : Nat
  height : Nat
  deriving DecidableEq, Repr

/-- The quotient `a / b` rounded to the nearest integer, a half rounding up. -/
def roundDiv (a b : Nat) : Nat := (2 * a + b) / (2 * b)

/-- Modelled from the spec: the resize geometry of the external sharp library
(Geometry Resolver, section 4.1).  With the aspect ratio kept, a single
dimension fixes the other in proportion and two dimensions are a bounding box
that is never exceeded nor scaled up to; without it the given dimensions are
used as they are and a missing one stays at its original value.  With neither
dimension nothing is resized. -/
def resolveGeometry (orig : Dimensions) (w h : Option Nat) (maintain : Bool) : Dimensions :=
  match w, h with
  | none, none => orig
  | some w, none =>
    if maintain then ⟨w, roundDiv (w * orig.height) orig.width⟩ else ⟨w, orig.height⟩
  | none, some h =>
    if maintain then ⟨roundDiv (h * orig.width) orig.height, h⟩ else ⟨orig.width, h⟩
  | some w, some h =>
    if maintain then
      if orig.width ≤ w ∧ orig.height ≤ h then orig
      else if w * orig.height ≤ h * orig.width then ⟨w, roundDiv (w * orig.height) orig.width⟩
      else ⟨roundDiv (h * orig.width) orig.height, h⟩
    else ⟨w, h⟩

/-- The positive integer a Number stands for, if it is one. -/
def JSNum.toPosInt? : JSNum → Option Nat
  | JSNum.fin false m => if m % unit = 0 ∧ 0 < m then some (m / unit) else none
  | _ => none

/-- A dimension option of `resize`: absent, a positive integer, or invalid
(the outer `none`). -/
def dimensionOption (key : String) (opts : List (String × OptValue)) : Option (Option Nat) :=
  match lookupKey key opts with
  | none => some none
  | some (OptValue.num x) => (JSNum.toPosInt? x).map some
  | some _ => none

/-- Modelled from the spec: the dimensions sharp's `resize(options)` produces,
`none` when an option is not a positive integer.  The fit `inside` is the
policy that keeps the aspect ratio. -/
def sharpResize (opts : List (String × OptValue)) (orig : Dimensions) : Option Dimensions :=
  match dimensionOption "width" opts, dimensionOption "height" opts with
  | some w, some h =>
    some (resolveGeometry orig w h (lookupKey "fit" opts == some (OptValue.str "inside")))
  | _, _ => none

/-- The effect of one pipeline operation on the pixel dimensions: only
`resize` changes them, by the geometry `geom` of the image library. -/
def opDimensions (geom : List (String × OptValue) → Dimensions → Option Dimensions)
    (op : SharpOp) (d : Dimensions) : Option Dimensions :=
  match op with
  | SharpOp.resize opts => geom opts d
  | _ => some d

/-- The dimensions of the image a pipeline yields from an input of
dimensions `orig`. -/
def pipelineDimensions (geom : List (String × OptValue) → Dimensions → Option Dimensions)
    (ops : List SharpOp) (orig : Dimensions) : Option Dimensions :=
  ops.foldlM (fun d op => opDimensions geom op d) orig

/-- How the transparent branch ends: the mask is composited onto the resized
image, or the pipeline throws and the `catch` block answers with the status
and error given. -/
inductive CompositeOutcome where
  | composited (base mask : Dimensions)
  | failed (status : Nat) (error : String)
  deriving DecidableEq, Repr

/-- The transparent branch on an upload of dimensions `orig`: both pipelines
read the uploaded file, and sharp composites an overlay only when it is of
the same size as the processed image or smaller, otherwise `toFile` rejects
and the handler answers 500.  `none` when the request asks for no
transparency. -/
def compositeOutcome (geom : List (String × OptValue) → Dimensions → Option Dimensions)
    (body : ResizeBody) (orig : Dimensions) : Option CompositeOutcome :=
  match (resizePlan body).mask with
  | none => none
  | some mops =>
    match pipelineDimensions geom (resizePlan body).base orig,
      pipelineDimensions geom mops orig with
    | some b, some m =>
      if m.width ≤ b.width ∧ m.height ≤ b.height then some (CompositeOutcome.composited b m)
      else some (CompositeOutcome.failed 500 "Error processing image")
    | _, _ => some (CompositeOutcome.failed 500 "Error processing image")

/-! ## Upload storage and the file filter -/

/-- The state of the backwards scan in Node's `path.extname`. -/
structure ExtScan where
  startDot : Option Nat
  startPart : Nat
  endPos : Option Nat
  matchedSlash : Bool
  preDotState : Int
  finished : Bool
  deriving DecidableEq, Repr

/-- One step of the scan, at index `i` holding character `c`. -/
def extScanStep (i : Nat) (c : Char) (st : ExtScan) : ExtScan :=
  if st.finished then st
  else if c = '/' then
    (if st.matchedSlash then st else { st with startPart := i + 1, finished := true })
  else
    let st1 : ExtScan :=
      if st.endPos = none then { st with matchedSlash := false, endPos := some (i + 1) } else st
    if c = '.' then
      (if st1.startDot = none then { st1 with startDot := some i }
       else if st1.preDotState ≠ 1 then { st1 with preDotState := 1 } else st1)
    else if st1.startDot ≠ none then { st1 with preDotState := -1 }
    else st1

/-- The scan from the last character down to the first: `rev` is the text
reversed and `len` the number of characters still ahead. -/
def extScan : List Char → Nat → ExtScan → ExtScan
  | [], _, st => st
  | c :: rest, len, st => extScan rest (len - 1) (extScanStep (len - 1) c st)

/-- Node's POSIX `path.extname`: from the last dot of the last path portion to
its end, empty when there is no such dot or the portion starts with it. -/
def extname (p : List Char) : List Char :=
  let st := extScan p.reverse p.length
    { startDot := none, startPart := 0, endPos := none, matchedSlash := true,
      preDotState := 0, finished := false }
  match st.startDot, st.endPos with
  | some sd, some e =>
    if st.preDotState = 0 ∨ (st.preDotState = 1 ∧ sd = e - 1 ∧ sd = st.startPart + 1) then []
    else (p.take e).drop sd
  | _, _ => []

/-- The name multer stores an upload under: `Date.now()`, a dash, the rounded
random number `rnd = Math.round(Math.random() * 1E9)`, and the extension. -/
def storageFilename (now rnd : Nat) (originalname : String) : String :=
  toString now ++ "-" ++ toString rnd ++ String.mk (extname originalname.toList)

/-- Whether `pat` occurs somewhere in `s`. -/
def occursIn (pat s : List Char) : Bool :=
  s.tails.any (fun t => pat.isPrefixOf t)

/-- The test of the regular expression `/jpeg|jpg|png|gif|webp/`: one of the
alternatives occurs somewhere in the text. -/
def allowedTypesTest (s : List Char) : Bool :=
  ["jpeg", "jpg", "png", "gif", "webp"].any (fun pat => occursIn pat.toList s)

/-- The part of an uploaded file the filter reads. -/
structure UploadedFile where
  originalname : String
  mimetype : String
  deriving DecidableEq, Repr

/-- What the filter hands to its callback: `cb(null, true)` or `cb(new Error(message))`. -/
inductive FilterResult where
  | accept
  | reject (message : String)
  deriving DecidableEq, Repr

/-- The multer `fileFilter`.  Lower-casing is that of the ASCII letters, the
only ones the pattern can match. -/
def fileFilter (file : UploadedFile) : FilterResult :=
  let extOk := allowedTypesTest ((extname file.originalname.toList).map Char.toLower)
  let mimeOk := allowedTypesTest file.mimetype.toList
  if mimeOk && extOk then FilterResult.accept
  else FilterResult.reject "Only image files are allowed!"

/-! ## `GET /download/:filename` -/

/-- The pieces of a path between its slashes. -/
def splitSlash : List Char → List (List Char)
  | [] => [[]]
  | c :: cs =>
    if c = '/' then [] :: splitSlash cs
    else
      match splitSlash cs with
      | [] => [[c]]
      | seg :: rest => (c :: seg) :: rest

/-- Node's path normalisation of one segment against the segments kept so far
(of an absolute path): an empty segment and `.` are dropped, `..` removes the
last kept segment if there is one, any other segment is kept. -/
def normalizeStep (stack : List String) (seg : List Char) : List String :=
  if seg = [] ∨ seg = ['.'] then stack
  else if seg = ['.', '.'] then stack.dropLast
  else stack ++ [String.mk seg]

/-- A normalised absolute path: its segments from the root, and whether it
ends in a slash. -/
structure ResolvedPath where
  segments : List String
  trailingSlash : Bool
  deriving DecidableEq, Repr

/-- `path.join(dir, name)` for an absolute normalised directory `dir`, given by
its segments. -/
def pathJoin (dir : List String) (name : String) : ResolvedPath :=
  let segs := (splitSlash name.toList).foldl normalizeStep dir
  { segments := segs,
    trailingSlash := decide (segs ≠ []) && (name.toList.getLast? == some '/') }

/-- The constant `processedDir = path.join(__dirname, 'processed')`. -/
def processedDir (dirname : List String) : List String :=
  (pathJoin dirname "processed").segments

/-- The constant `uploadsDir = path.join(__dirname, 'uploads')`. -/
def uploadsDir (dirname : List String) : List String :=
  (pathJoin dirname "uploads").segments

/-- What lies at a path of the disk. -/
inductive FsEntry where
  | missing
  | file
  | directory
  deriving DecidableEq, Repr

/-- The responses of the download route: the file is sent as an attachment,
the handler answers with its own JSON error, or Express refuses with a
status of its own and sends no file. -/
inductive DownloadResponse where
  | sendFile (filePath : ResolvedPath) (filename : String)
  | json (status : Nat) (error : String)
  | refused (status : Nat)
  deriving DecidableEq, Repr

/-- Whether a segment of the path starts with a dot. -/
def hasDotSegment (segments : List String) : Bool :=
  segments.any (fun seg => seg.toList.head? == some '.')

/-- `fs.existsSync` on the disk `fsStat`. -/
def existsSync (fsStat : ResolvedPath → FsEntry) (p : ResolvedPath) : Bool :=
  fsStat p != FsEntry.missing

/-- Express's `res.download(filePath, filename)` with its default options: the
path is resolved (a trailing slash is dropped), a path with a segment that
starts with a dot is ignored with 404, a directory is not served, and a
regular file is sent. -/
def resDownload (fsStat : ResolvedPath → FsEntry) (filePath : ResolvedPath)
    (filename : String) : DownloadResponse :=
  if hasDotSegment filePath.segments then DownloadResponse.refused 404
  else
    match fsStat ⟨filePath.segments, false⟩ with
    | FsEntry.file => DownloadResponse.sendFile ⟨filePath.segments, false⟩ filename
    | FsEntry.directory => DownloadResponse.refused 404
    | FsEntry.missing => DownloadResponse.refused 404

/-- The handler of `GET /download/:filename` on the disk `fsStat`; `dirname`
is `__dirname`. -/
def downloadHandler (fsStat : ResolvedPath → FsEntry) (dirname : List String)
    (filename : String) : DownloadResponse :=
  let filePath := pathJoin (processedDir dirname) filename
  if existsSync fsStat filePath then resDownload fsStat filePath filename
  else DownloadResponse.json 404 "File not found"

/-! ## The hourly cleanup -/

/-- The two directories the cleanup visits. -/
inductive ManagedDir where
  | uploads
  | processed
  deriving DecidableEq, Repr

/-- A name returned by `fs.readdir` with the outcome of `fs.stat` on it:
`stats.mtime.getTime()` in milliseconds, or `none` when `stat` fails. -/
structure DirEntry where
  name : String
  mtime : Option Int
  deriving DecidableEq, Repr

/-- What `fs.readdir` yields for each managed directory, `none` on error. -/
structure Disk where
  uploads : Option (List DirEntry)
  processed : Option (List DirEntry)
  deriving DecidableEq, Repr

/-- The threshold `Date.now() - (60 * 60 * 1000)`. -/
def oneHourAgo (now : Int) : Int := now - 60 * 60 * 1000

/-- The files of one directory on which a tick calls `fs.unlink`. -/
def sweepDir (now : Int) (dir : ManagedDir) : Option (List DirEntry) → List (ManagedDir × String)
  | none => []
  | some files =>
    files.filterMap (fun f =>
      match f.mtime with
      | none => none
      | some t => if t < oneHourAgo now then some (dir, f.name) else none)

/-- The listing `fs.readdir` yields for a managed directory. -/
def Disk.listing (disk : Disk) : ManagedDir → Option (List DirEntry)
  | ManagedDir.uploads => disk.uploads
  | ManagedDir.processed => disk.processed

/-- One run of the `setInterval` callback at time `now`: every file it unlinks. -/
def cleanupTick (now : Int) (disk : Disk) : List (ManagedDir × String) :=
  sweepDir now ManagedDir.uploads disk.uploads
    ++ sweepDir now ManagedDir.processed disk.processed

/-! ## The client: `ImageResizer` -/

/-- The part of the `ImageResizer` state the settings handlers read and write.
A text field is `none` when its value is the empty string and otherwise holds
the Number its text converts to; assigning a Number stores its text. -/
structure ImageResizer where
  originalDimensions : Option Dimensions
  widthInput : Option JSNum
  heightInput : Option JSNum
  formatSelect : String
  maintainAspectRatio : Bool
  transparentBackground : Bool
  deriving DecidableEq, Repr

/-- The method `updateHeightFromWidth`. -/
def updateHeightFromWidth (s : ImageResizer) : ImageResizer :=
  match s.widthInput, s.originalDimensions with
  | some w, some d =>
    let ratio := (JSNum.ofNat d.height).div (JSNum.ofNat d.width)
    { s with heightInput := some (mathRound (w.mul ratio)) }
  | _, _ => s

/-- The method `updateWidthFromHeight`. -/
def updateWidthFromHeight (s : ImageResizer) : ImageResizer :=
  match s.heightInput, s.originalDimensions with
  | some h, some d =>
    let ratio := (JSNum.ofNat d.width).div (JSNum.ofNat d.height)
    { s with widthInput := some (mathRound (h.mul ratio)) }
  | _, _ => s

/-- The `input` listener bound to the width field. -/
def onWidthInput (s : ImageResizer) : ImageResizer :=
  if s.maintainAspectRatio && s.originalDimensions.isSome then updateHeightFromWidth s else s

/-- The `input` listener bound to the height field. -/
def onHeightInput (s : ImageResizer) : ImageResizer :=
  if s.maintainAspectRatio && s.originalDimensions.isSome then updateWidthFromHeight s else s

/-- The method `updateFormatForTransparency`. -/
def updateFormatForTransparency (s : ImageResizer) : ImageResizer :=
  if s.transparentBackground then
    (if s.formatSelect = "jpeg" ∨ s.formatSelect = "gif" then { s with formatSelect := "png" }
     else s)
  else s

/-- The double whose value is the integer `k`, for `k < 2 ^ 53`. -/
def JSNum.int (k : Nat) : JSNum := JSNum.fin false (k * unit)

/-! ## The options object and the encoder of `POST /resize` -/

theorem parseIntOrNull_absent (field : Option String)
    (h : field = none ∨ field = some "") : parseIntOrNull field = OptValue.null := by
  rcases h with rfl | rfl <;> decide

/-- C2: when the width and height fields are both missing or empty, the options
object passed to `resize` holds only `fit` (and `withoutEnlargement` when the
aspect ratio is kept), so it has no `width` and no `height` key, and the
resize leaves the original dimensions. -/
theorem resizeOptions_without_dimensions (body : ResizeBody)
    (hw : body.width = none ∨ body.width = some "")
    (hh : body.height = none ∨ body.height = some "") :
    resizeOptions body =
        (if body.maintainAspectRatio = some "true" then
          [("fit", OptValue.str "inside"), ("withoutEnlargement", OptValue.bool true)]
        else [("fit", OptValue.str "fill")])
      ∧ lookupKey "width" (resizeOptions body) = none
      ∧ lookupKey "height" (resizeOptions body) = none
      ∧ ∀ orig : Dimensions, sharpResize (resizeOptions body) orig = some orig := by
  have key : resizeOptions body =
      (if body.maintainAspectRatio = some "true" then
        [("fit", OptValue.str "inside"), ("withoutEnlargement", OptValue.bool true)]
      else [("fit", OptValue.str "fill")]) := by
    unfold resizeOptions initialResizeOptions
    rw [parseIntOrNull_absent _ hw, parseIntOrNull_absent _ hh]
    by_cases hm : body.maintainAspectRatio = some "true"
    · rw [if_pos hm, if_pos hm]; decide
    · rw [if_neg hm, if_neg hm]; decide
  refine ⟨key, ?_, ?_, ?_⟩
  · rw [key]; split <;> decide
  · rw [key]; split <;> decide
  · intro orig
    rw [key]
    split <;> rfl

theorem resizeOptions_without_dimensions_witness :
    resizeOptions ⟨some "", none, some "80", some "png", some "true", some "false"⟩ =
        (if (some "true" : Option String) = some "true" then
          [("fit", OptValue.str "inside"), ("withoutEnlargement", OptValue.bool true)]
        else [("fit", OptValue.str "fill")])
      ∧ lookupKey "width"
          (resizeOptions ⟨some "", none, some "80", some "png", some "true", some "false"⟩) = none
      ∧ lookupKey "height"
          (resizeOptions ⟨some "", none, some "80", some "png", some "true", some "false"⟩) = none
      ∧ ∀ orig : Dimensions,
          sharpResize
            (resizeOptions ⟨some "", none, some "80", some "png", some "true", some "false"⟩)
            orig = some orig :=
  resizeOptions_without_dimensions
    ⟨some "", none, some "80", some "png", some "true", some "false"⟩ (Or.inr rfl) (Or.inl rfl)

/-- C3: with `transparentBackground = 'true'` the encoder applied to the output
is the png encoder whatever format was requested, jpeg and gif included; on
the client the format select is switched to png for these two formats. -/
theorem transparent_output_is_png (body : ResizeBody) (s : ImageResizer)
    (ht : body.transparentBackground = some "true")
    (hs : s.transparentBackground = true)
    (hsf : s.formatSelect = "jpeg" ∨ s.formatSelect = "gif") :
    (resizePlan body).encoder = some (Encoder.png none)
      ∧ (updateFormatForTransparency s).formatSelect = "png" := by
  constructor
  · simp [resizePlan, ht]
  · simp [updateFormatForTransparency, hs, hsf]

theorem transparent_output_is_png_witness :
    (resizePlan ⟨some "400", none, some "80", some "jpeg", some "true", some "true"⟩).encoder
        = some (Encoder.png none)
      ∧ (updateFormatForTransparency
          ⟨some ⟨800, 600⟩, none, none, "gif", true, true⟩).formatSelect = "png" :=
  transparent_output_is_png
    ⟨some "400", none, some "80", some "jpeg", some "true", some "true"⟩
    ⟨some ⟨800, 600⟩, none, none, "gif", true, true⟩ rfl rfl (Or.inr rfl)

/-- C4: the filter accepts a file whose extension `.jpgx` is none of the listed
extensions and whose declared type is no image type, because the pattern is
searched for anywhere in the text. -/
theorem fileFilter_accepts_other_extension :
    (extname "archive.jpgx".toList).map Char.toLower = ".jpgx".toList
      ∧ fileFilter ⟨"archive.jpgx", "application/x-jpeg-archive"⟩ = FilterResult.accept := by
  decide

/-- C6: two different requests handled in the same millisecond with the same
format get the same processed file name, while their uploads get different
stored names. -/
theorem outputFilename_same_millisecond :
    (⟨some "400", none, some "80", some "png", some "true", some "false"⟩ : ResizeBody)
        ≠ ⟨some "200", some "100", some "50", some "png", some "false", some "false"⟩
      ∧ outputFilename 1700000000000
          ⟨some "400", none, some "80", some "png", some "true", some "false"⟩
        = outputFilename 1700000000000
          ⟨some "200", some "100", some "50", some "png", some "false", some "false"⟩
      ∧ storageFilename 1700000000000 123456789 "cat.png"
        ≠ storageFilename 1700000000000 987654321 "cat.png" := by
  decide

/-! ## Quality -/

theorem qualityOrDefault_decimal (q : Nat) (h1 : 1 ≤ q) (h100 : q ≤ 100) :
    qualityOrDefault (some (toString q)) = JSNum.int q := by
  interval_cases q <;> decide

theorem qualityOrDefault_nan (quality : Option String)
    (h : parseIntField quality = JSNum.nan) : qualityOrDefault quality = JSNum.int 80 := by
  unfold qualityOrDefault JSNum.orElse
  rw [h]
  decide

/-- C8, the input that refutes it: a requested quality of 0 reaches the jpeg
encoder as 80. -/
theorem quality_zero_becomes_default :
    (resizePlan ⟨some "400", none, some "0", some "jpeg", some "true", some "false"⟩).encoder
        = some (Encoder.jpeg (JSNum.int 80))
      ∧ JSNum.int 80 ≠ JSNum.int 0 := by
  decide

/-- C8 as amended: without transparency and with format jpeg, jpg, png or webp,
the encoder is called with the requested quality for every integer quality
from 1 to 100, and with 80 when the field is absent or `parseInt` finds no
number in it. -/
theorem encoder_quality (body : ResizeBody)
    (ht : body.transparentBackground ≠ some "true")
    (hf : body.format = some "jpeg" ∨ body.format = some "jpg" ∨ body.format = some "png"
      ∨ body.format = some "webp") :
    (∀ q : Nat, 1 ≤ q → q ≤ 100 → body.quality = some (toString q) →
        ∃ e, (resizePlan body).encoder = some e ∧ e.quality? = some (JSNum.int q))
      ∧ (body.quality = none ∨ parseIntField body.quality = JSNum.nan →
        ∃ e, (resizePlan body).encoder = some e ∧ e.quality? = some (JSNum.int 80)) := by
  have hplan : (resizePlan body).encoder = formatEncoder body := by
    simp [resizePlan, ht]
  have henc : ∃ e, formatEncoder body = some e
      ∧ e.quality? = some (qualityOrDefault body.quality) := by
    rcases hf with h | h | h | h <;> simp [formatEncoder, h, Encoder.quality?]
  obtain ⟨e, he, hq⟩ := henc
  refine ⟨?_, ?_⟩
  · intro q h1 h100 hbody
    refine ⟨e, by rw [hplan, he], ?_⟩
    rw [hq, hbody, qualityOrDefault_decimal q h1 h100]
  · intro habs
    refine ⟨e, by rw [hplan, he], ?_⟩
    rw [hq]
    congr 1
    apply qualityOrDefault_nan
    rcases habs with h | h
    · rw [h]; decide
    · exact h

theorem encoder_quality_witness :
    (∃ e, (resizePlan ⟨some "400", none, some "75", some "webp", some "true",
        some "false"⟩).encoder = some e ∧ e.quality? = some (JSNum.int 75))
      ∧ (∃ e, (resizePlan ⟨some "400", none, some "high", some "jpg", some "true",
        none⟩).encoder = some e ∧ e.quality? = some (JSNum.int 80)) :=
  ⟨(encoder_quality ⟨some "400", none, some "75", some "webp", some "true", some "false"⟩
      (by decide) (Or.inr (Or.inr (Or.inr rfl)))).1 75 (by decide) (by decide) rfl,
    (encoder_quality ⟨some "400", none, some "high", some "jpg", some "true", none⟩
      (by decide) (Or.inr (Or.inl rfl))).2 (Or.inr (by decide))⟩

/-! ## The transparency mask -/

/-- C10: the mask pipeline holds no resize, so the mask has the dimensions of
the upload whatever is requested; for an 800×600 upload and a requested width
of 400 with the aspect ratio kept the resized image is 400×300, the mask is
800×600, and the composite fails with status 500 (likewise for a resize to
500×500 without the aspect ratio). -/
theorem mask_is_not_resized :
    (∀ (geom : List (String × OptValue) → Dimensions → Option Dimensions) (orig : Dimensions),
        pipelineDimensions geom maskOps orig = some orig)
      ∧ (resizePlan ⟨some "400", none, some "80", some "png", some "true", some "true"⟩).mask
        = some maskOps
      ∧ pipelineDimensions sharpResize
          (resizePlan ⟨some "400", none, some "80", some "png", some "true", some "true"⟩).base
          ⟨800, 600⟩ = some ⟨400, 300⟩
      ∧ compositeOutcome sharpResize
          ⟨some "400", none, some "80", some "png", some "true", some "true"⟩ ⟨800, 600⟩
        = some (CompositeOutcome.failed 500 "Error processing image")
      ∧ pipelineDimensions sharpResize
          (resizePlan ⟨some "500", some "500", some "80", some "png", some "false",
            some "true"⟩).base ⟨800, 600⟩ = some ⟨500, 500⟩
      ∧ compositeOutcome sharpResize
          ⟨some "500", some "500", some "80", some "png", some "false", some "true"⟩ ⟨800, 600⟩
        = some (CompositeOutcome.failed 500 "Error processing image") := by
  refine ⟨?_, by decide, by decide, by decide, by decide, by decide⟩
  intro geom orig
  rfl

/-! ## The hourly cleanup -/

theorem mem_sweepDir (now : Int) (dir dir2 : ManagedDir) (files : List DirEntry)
    (name : String) :
    (dir2, name) ∈ sweepDir now dir (some files)
      ↔ dir2 = dir ∧ ∃ f ∈ files, f.name = name ∧ ∃ t, f.mtime = some t ∧ t < oneHourAgo now := by
  simp only [sweepDir, List.mem_filterMap]
  constructor
  · rintro ⟨f, hf, hres⟩
    cases hm : f.mtime with
    | none => rw [hm] at hres; simp at hres
    | some t =>
      rw [hm] at hres
      by_cases hlt : t < oneHourAgo now
      · simp only [hlt, if_true, Option.some.injEq, Prod.mk.injEq] at hres
        exact ⟨hres.1.symm, f, hf, hres.2, t, hm, hlt⟩
      · simp [hlt] at hres
  · rintro ⟨rfl, f, hf, rfl, t, hm, hlt⟩
    exact ⟨f, hf, by simp [hm, hlt]⟩

theorem mem_cleanupTick (now : Int) (disk : Disk) (dir : ManagedDir) (files : List DirEntry)
    (hdir : disk.listing dir = some files) (name : String) :
    (dir, name) ∈ cleanupTick now disk
      ↔ ∃ f ∈ files, f.name = name ∧ ∃ t, f.mtime = some t ∧ t < oneHourAgo now := by
  unfold cleanupTick
  rw [List.mem_append]
  cases dir with
  | uploads =>
    have hu : disk.uploads = some files := hdir
    rw [hu, mem_sweepDir]
    cases hp : disk.processed with
    | none => simp [sweepDir]
    | some ps => rw [mem_sweepDir]; simp
  | processed =>
    have hu : disk.processed = some files := hdir
    rw [hu, mem_sweepDir]
    cases hp : disk.uploads with
    | none => simp [sweepDir]
    | some ps => rw [mem_sweepDir]; simp

/-- C5: on a tick at time `now`, a file listed in the uploads or the processed
directory whose `stat` succeeds with modification time `t` is unlinked if and
only if `now - t` is strictly more than 3,600,000 ms; so it is unlinked 61
minutes after `t` and kept when its age is one hour or less. -/
theorem cleanupTick_unlinks_iff (now : Int) (disk : Disk) (dir : ManagedDir)
    (files : List DirEntry) (f : DirEntry) (t : Int)
    (hdir : disk.listing dir = some files)
    (hnames : (files.map DirEntry.name).Nodup)
    (hf : f ∈ files) (hstat : f.mtime = some t) :
    ((dir, f.name) ∈ cleanupTick now disk ↔ now - t > 3600000)
      ∧ (now = t + 61 * 60 * 1000 → (dir, f.name) ∈ cleanupTick now disk)
      ∧ (now - t ≤ 60 * 60 * 1000 → (dir, f.name) ∉ cleanupTick now disk) := by
  have key : (dir, f.name) ∈ cleanupTick now disk ↔ now - t > 3600000 := by
    rw [mem_cleanupTick now disk dir files hdir]
    constructor
    · rintro ⟨g, hg, hname, u, hu, hlt⟩
      have hgf : g = f := List.inj_on_of_nodup_map hnames hg hf hname
      rw [hgf, hstat] at hu
      have htu : t = u := Option.some.inj hu
      unfold oneHourAgo at hlt
      omega
    · intro hgt
      refine ⟨f, hf, rfl, t, hstat, ?_⟩
      unfold oneHourAgo
      omega
  refine ⟨key, ?_, ?_⟩
  · intro hnow
    rw [key]
    omega
  · intro hage
    rw [key]
    omega

theorem cleanupTick_unlinks_iff_witness :
    (((ManagedDir.processed, "resized-1700000000000.png")
          ∈ cleanupTick (1700000000000 + 61 * 60 * 1000)
            ⟨some [⟨"1700000000000-5.png", some 1700000000000⟩],
              some [⟨"resized-1700000000000.png", some 1700000000000⟩,
                ⟨"resized-1700003600000.png", some 1700003600000⟩]⟩)
        ↔ (1700000000000 + 61 * 60 * 1000 : Int) - 1700000000000 > 3600000)
      ∧ ((1700000000000 + 61 * 60 * 1000 : Int) = 1700000000000 + 61 * 60 * 1000 →
        (ManagedDir.processed, "resized-1700000000000.png")
          ∈ cleanupTick (1700000000000 + 61 * 60 * 1000)
            ⟨some [⟨"1700000000000-5.png", some 1700000000000⟩],
              some [⟨"resized-1700000000000.png", some 1700000000000⟩,
                ⟨"resized-1700003600000.png", some 1700003600000⟩]⟩)
      ∧ ((1700000000000 + 61 * 60 * 1000 : Int) - 1700000000000 ≤ 60 * 60 * 1000 →
        (ManagedDir.processed, "resized-1700000000000.png")
          ∉ cleanupTick (1700000000000 + 61 * 60 * 1000)
            ⟨some [⟨"1700000000000-5.png", some 1700000000000⟩],
              some [⟨"resized-1700000000000.png", some 1700000000000⟩,
                ⟨"resized-1700003600000.png", some 1700003600000⟩]⟩) :=
  cleanupTick_unlinks_iff (1700000000000 + 61 * 60 * 1000)
    ⟨some [⟨"1700000000000-5.png", some 1700000000000⟩],
      some [⟨"resized-1700000000000.png", some 1700000000000⟩,
        ⟨"resized-1700003600000.png", some 1700003600000⟩]⟩
    ManagedDir.processed
    [⟨"resized-1700000000000.png", some 1700000000000⟩,
      ⟨"resized-1700003600000.png", some 1700003600000⟩]
    ⟨"resized-1700000000000.png", some 1700000000000⟩ 1700000000000
    rfl (by decide) (by decide) rfl

/-! ## The download route -/

theorem splitSlash_of_no_slash (l : List Char) (h : '/' ∉ l) : splitSlash l = [l] := by
  induction l with
  | nil => rfl
  | cons c cs ih =>
    have hc : c ≠ '/' := fun hc => h (by simp [hc])
    have hcs : '/' ∉ cs := fun hm => h (List.mem_cons_of_mem _ hm)
    simp [splitSlash, hc, ih hcs]

theorem getLast?_of_no_slash (l : List Char) (h : '/' ∉ l) :
    (l.getLast? == some '/') = false := by
  cases hl : l.getLast? with
  | none => rfl
  | some c =>
    have hmem : c ∈ l := List.mem_of_getLast?_eq_some hl
    have hc : c ≠ '/' := fun hc => h (hc ▸ hmem)
    simp [hc]

theorem processedDir_eq (dirname : List String) :
    processedDir dirname = dirname ++ ["processed"] := by
  have h : splitSlash "processed".toList = ["processed".toList] := by decide
  simp only [processedDir, pathJoin, h, List.foldl]
  have h1 : normalizeStep dirname "processed".toList = dirname ++ ["processed"] := by
    unfold normalizeStep
    rw [if_neg (by decide), if_neg (by decide)]
    rfl
  exact h1

/-- C7, the input that refutes it: the name `../server.js` holds a separator
and a parent-directory sequence, and the handler sends `server.js` of the
application directory, outside the processed directory. -/
theorem download_serves_parent_directory :
    '/' ∈ "../server.js".toList
      ∧ downloadHandler
          (fun p => if p = ⟨["app", "server.js"], false⟩ then FsEntry.file else FsEntry.missing)
          ["app"] "../server.js"
        = DownloadResponse.sendFile ⟨["app", "server.js"], false⟩ "../server.js"
      ∧ processedDir ["app"] = ["app", "processed"] := by
  decide

/-- C7 as amended: for a name without a path separator that is not empty, `.`
or `..`, the handler looks only at the entry of that name directly inside the
processed directory: when nothing exists there it responds 404 with the error
`File not found`; a regular file there is sent as the download unless a
segment of its path starts with a dot, in which case Express answers 404 and
sends nothing; a directory is answered with 404 as well. -/
theorem downloadHandler_plain_name (fsStat : ResolvedPath → FsEntry) (dirname : List String)
    (filename : String)
    (hsep : '/' ∉ filename.toList) (hne : filename ≠ "") (hdot : filename ≠ ".")
    (hdots : filename ≠ "..") :
    pathJoin (processedDir dirname) filename
        = ⟨dirname ++ ["processed", filename], false⟩
      ∧ downloadHandler fsStat dirname filename
        = (match fsStat ⟨dirname ++ ["processed", filename], false⟩ with
          | FsEntry.missing => DownloadResponse.json 404 "File not found"
          | FsEntry.directory => DownloadResponse.refused 404
          | FsEntry.file =>
            if hasDotSegment (dirname ++ ["processed", filename]) then
              DownloadResponse.refused 404
            else
              DownloadResponse.sendFile ⟨dirname ++ ["processed", filename], false⟩ filename) := by
  have h1 : filename.toList ≠ [] := fun h => hne (String.ext h)
  have h2 : filename.toList ≠ ['.'] := fun h => hdot (String.ext h)
  have h3 : filename.toList ≠ ['.', '.'] := fun h => hdots (String.ext h)
  have hmk : String.mk filename.toList = filename := rfl
  have hjoin : pathJoin (processedDir dirname) filename
      = ⟨dirname ++ ["processed", filename], false⟩ := by
    simp only [pathJoin, splitSlash_of_no_slash _ hsep, List.foldl, normalizeStep, h1, h2, h3,
      or_self, if_false, hmk, getLast?_of_no_slash _ hsep, Bool.and_false, processedDir_eq]
    simp
  refine ⟨hjoin, ?_⟩
  simp only [downloadHandler, hjoin, existsSync, resDownload]
  cases hst : fsStat ⟨dirname ++ ["processed", filename], false⟩ <;> simp

theorem downloadHandler_plain_name_witness :
    downloadHandler
        (fun p =>
          if p = ⟨["app", "processed", "resized-1700000000000.png"], false⟩ then FsEntry.file
          else FsEntry.missing)
        ["app"] "resized-1700000000000.png"
      = DownloadResponse.sendFile ⟨["app", "processed", "resized-1700000000000.png"], false⟩
          "resized-1700000000000.png"
      ∧ downloadHandler
          (fun p =>
            if p = ⟨["app", "processed", ".hidden.png"], false⟩ then FsEntry.file
            else FsEntry.missing)
          ["app"] ".hidden.png"
        = DownloadResponse.refused 404
      ∧ downloadHandler (fun _ => FsEntry.missing) ["app"] "resized-1700000000000.png"
        = DownloadResponse.json 404 "File not found" :=
  ⟨(downloadHandler_plain_name
      (fun p =>
        if p = ⟨["app", "processed", "resized-1700000000000.png"], false⟩ then FsEntry.file
        else FsEntry.missing)
      ["app"] "resized-1700000000000.png" (by decide) (by decide) (by decide)
      (by decide)).2.trans (by decide),
    (downloadHandler_plain_name
      (fun p =>
        if p = ⟨["app", "processed", ".hidden.png"], false⟩ then FsEntry.file
        else FsEntry.missing)
      ["app"] ".hidden.png" (by decide) (by decide) (by decide) (by decide)).2.trans (by decide),
    (downloadHandler_plain_name (fun _ => FsEntry.missing) ["app"] "resized-1700000000000.png"
      (by decide) (by decide) (by decide) (by decide)).2.trans (by decide)⟩

/-! ## Rounding to the nearest double -/

theorem ilog2Aux_spec (q : Nat) : ∀ (j acc : Nat), 2 ^ acc ≤ q → q < 2 ^ (acc + 2 ^ j) →
    2 ^ ilog2Aux q j acc ≤ q ∧ q < 2 ^ (ilog2Aux q j acc + 1) := by
  intro j
  induction j with
  | zero =>
    intro acc h1 h2
    simpa [ilog2Aux] using ⟨h1, h2⟩
  | succ j ih =>
    intro acc h1 h2
    unfold ilog2Aux
    split
    · next hge =>
      apply ih _ hge
      have : acc + 2 ^ j + 2 ^ j = acc + 2 ^ (j + 1) := by rw [pow_succ]; omega
      rw [this]; exact h2
    · next hlt =>
      exact ih _ h1 (not_le.1 hlt)

theorem ilog2_spec (q : Nat) (hpos : 0 < q) (hlt : q < 2 ^ 4096) :
    2 ^ ilog2 q ≤ q ∧ q < 2 ^ (ilog2 q + 1) := by
  unfold ilog2
  apply ilog2Aux_spec
  · simpa using hpos
  · simpa using hlt

theorem roundHalfEven_spec (n d : Nat) (hd : 0 < d) :
    2 * (roundHalfEven n d * d) ≤ 2 * n + d ∧ 2 * n ≤ 2 * (roundHalfEven n d * d) + d := by
  have hdm := Nat.div_add_mod n d
  have hmod := Nat.mod_lt n hd
  have hmul : n / d * d = d * (n / d) := Nat.mul_comm _ _
  have hsucc : (n / d + 1) * d = d * (n / d) + d := by rw [Nat.add_mul, hmul, Nat.one_mul]
  unfold roundHalfEven
  simp only []
  split
  · rw [hmul]; omega
  · split
    · rw [hsucc]; omega
    · split
      · rw [hmul]; omega
      · rw [hsucc]; omega

theorem roundHalfEven_of_dvd (n d : Nat) (hd : 0 < d) (h : d ∣ n) :
    roundHalfEven n d * d = n := by
  have hmod : n % d = 0 := Nat.mod_eq_zero_of_dvd h
  unfold roundHalfEven
  simp only [hmod, Nat.mul_zero, hd, if_true]
  exact Nat.div_mul_cancel h

theorem roundToDouble_spec (n d : Nat) (hd : 0 < d) (hlo : 2 ^ 52 * d ≤ n)
    (hhi : n < 2 ^ 2097 * d) :
    ∃ r, roundToDouble n d = some r ∧ 2 ^ 53 * (r * d) ≤ (2 ^ 53 + 1) * n
      ∧ (2 ^ 53 - 1) * n ≤ 2 ^ 53 * (r * d) := by
  have hqlo : 2 ^ 52 ≤ n / d := (Nat.le_div_iff_mul_le hd).2 hlo
  have hqhi : n / d < 2 ^ 2097 := (Nat.div_lt_iff_lt_mul hd).2 hhi
  have hqpos : 0 < n / d := lt_of_lt_of_le (by positivity) hqlo
  have hq4096 : n / d < 2 ^ 4096 :=
    lt_trans hqhi (Nat.pow_lt_pow_right (by norm_num) (by norm_num))
  obtain ⟨he1, he2⟩ := ilog2_spec (n / d) hqpos hq4096
  have he52 : 52 < ilog2 (n / d) + 1 :=
    (Nat.pow_lt_pow_iff_right (by norm_num : 1 < 2)).1 (lt_of_le_of_lt hqlo he2)
  obtain ⟨k, hk⟩ : ∃ k, ilog2 (n / d) = k + 52 := ⟨ilog2 (n / d) - 52, by omega⟩
  have hksub : ilog2 (n / d) - 52 = k := by omega
  have hkn : 2 ^ (k + 52) * d ≤ n := by
    rw [hk] at he1
    exact le_trans (Nat.mul_le_mul_right d he1) (Nat.div_mul_le_self n d)
  have hD : 0 < d * 2 ^ k := Nat.mul_pos hd (by positivity)
  obtain ⟨hm1, hm2⟩ := roundHalfEven_spec n (d * 2 ^ k) hD
  set m := roundHalfEven n (d * 2 ^ k) with hm
  have hrd : m * 2 ^ k * d = m * (d * 2 ^ k) := by ring
  have hpow : 2 ^ (k + 52) * d = 2 ^ 52 * (d * 2 ^ k) := by rw [pow_add]; ring
  have hb1 : 2 ^ 53 * (m * 2 ^ k * d) ≤ (2 ^ 53 + 1) * n := by
    rw [hrd]; rw [hpow] at hkn
    generalize m * (d * 2 ^ k) = A at *
    generalize d * 2 ^ k = D at *
    norm_num at *
    omega
  have hb2 : (2 ^ 53 - 1) * n ≤ 2 ^ 53 * (m * 2 ^ k * d) := by
    rw [hrd]; rw [hpow] at hkn
    generalize m * (d * 2 ^ k) = A at *
    generalize d * 2 ^ k = D at *
    norm_num at *
    omega
  refine ⟨m * 2 ^ k, ?_, hb1, hb2⟩
  have hr : m * 2 ^ k < overflowBound := by
    have h1 : 2 ^ 53 * (m * 2 ^ k * d) < (2 ^ 53 + 1) * (2 ^ 2097 * d) :=
      lt_of_le_of_lt hb1 (Nat.mul_lt_mul_of_pos_left hhi (by positivity))
    have h2 : (2 ^ 53 + 1) * (2 ^ 2097 * d) ≤ 2 ^ 53 * (2 ^ 2098 * d) := by
      have : (2 ^ 53 + 1) * 2 ^ 2097 ≤ 2 ^ 53 * 2 ^ 2098 := by norm_num
      calc (2 ^ 53 + 1) * (2 ^ 2097 * d) = (2 ^ 53 + 1) * 2 ^ 2097 * d := by ring
        _ ≤ 2 ^ 53 * 2 ^ 2098 * d := Nat.mul_le_mul_right d this
        _ = 2 ^ 53 * (2 ^ 2098 * d) := by ring
    have h3 : m * 2 ^ k * d < 2 ^ 2098 * d :=
      Nat.lt_of_mul_lt_mul_left (lt_of_lt_of_le h1 h2)
    exact Nat.lt_of_mul_lt_mul_right h3
  have hq : ¬ overflowBound ≤ n / d :=
    not_le.2 (lt_trans hqhi (Nat.pow_lt_pow_right (by norm_num) (by norm_num)))
  unfold roundToDouble
  rw [if_neg hq]
  simp only [hksub]
  rw [← hm, if_neg (not_le.2 hr)]

theorem unit_eq : unit = 2 ^ 1074 := rfl

theorem unit_pos : 0 < unit := by rw [unit_eq]; positivity

theorem roundToDouble_int (k : Nat) (hk : k < 2 ^ 53) :
    roundToDouble (k * unit) 1 = some (k * unit) := by
  rcases Nat.eq_zero_or_pos k with rfl | hpos
  · rw [Nat.zero_mul]; decide
  · have hn_lo : 2 ^ 1074 ≤ k * unit := by
      rw [unit_eq]; exact Nat.le_mul_of_pos_left _ hpos
    have hn_hi : k * unit < 2 ^ 1127 := by
      rw [unit_eq, show (2 : Nat) ^ 1127 = 2 ^ 53 * 2 ^ 1074 by rw [← pow_add]]
      exact Nat.mul_lt_mul_of_pos_right hk (by positivity)
    have hpos2 : 0 < k * unit := lt_of_lt_of_le (by positivity) hn_lo
    obtain ⟨he1, he2⟩ := ilog2_spec (k * unit) hpos2
      (lt_trans hn_hi (Nat.pow_lt_pow_right (by norm_num) (by norm_num)))
    have he : ilog2 (k * unit) < 1127 :=
      (Nat.pow_lt_pow_iff_right (by norm_num : 1 < 2)).1 (lt_of_le_of_lt he1 hn_hi)
    have hj : ilog2 (k * unit) - 52 ≤ 1074 := by omega
    have hdvd : 2 ^ (ilog2 (k * unit) - 52) ∣ k * unit :=
      Dvd.dvd.mul_left (by rw [unit_eq]; exact pow_dvd_pow 2 hj) k
    have hr := roundHalfEven_of_dvd (k * unit) (2 ^ (ilog2 (k * unit) - 52)) (by positivity) hdvd
    have hov : k * unit < overflowBound :=
      lt_trans hn_hi (Nat.pow_lt_pow_right (by norm_num) (by norm_num))
    unfold roundToDouble
    simp only [Nat.div_one, Nat.one_mul]
    rw [if_neg (not_le.2 hov), hr, if_neg (not_le.2 hov)]

theorem ofNat_eq_int (k : Nat) (hk : k < 2 ^ 53) : JSNum.ofNat k = JSNum.int k := by
  unfold JSNum.ofNat JSNum.ofRatio JSNum.int
  rw [roundToDouble_int k hk]

theorem rel_bounds (n d r : Nat) (hd : 0 < d)
    (hu : 2 ^ 53 * (r * d) ≤ (2 ^ 53 + 1) * n)
    (hl : (2 ^ 53 - 1) * n ≤ 2 ^ 53 * (r * d)) :
    (1 - 1 / 2 ^ 53) * ((n : ℚ) / d) ≤ r ∧ (r : ℚ) ≤ (1 + 1 / 2 ^ 53) * ((n : ℚ) / d) := by
  have hd' : (0 : ℚ) < d := by exact_mod_cast hd
  have hu' : (2 : ℚ) ^ 53 * (r * d) ≤ (2 ^ 53 + 1) * n := by exact_mod_cast hu
  have hl' : ((2 : ℚ) ^ 53 - 1) * n ≤ 2 ^ 53 * (r * d) := by
    have h : (9007199254740991 : Nat) * n ≤ 9007199254740992 * (r * d) := by
      norm_num at hl; exact hl
    have h2 : (9007199254740991 : ℚ) * n ≤ 9007199254740992 * (r * d) := by exact_mod_cast h
    norm_num
    exact h2
  constructor
  · rw [← sub_nonneg]
    have : (r : ℚ) - (1 - 1 / 2 ^ 53) * ((n : ℚ) / d)
        = (2 ^ 53 * (r * d) - (2 ^ 53 - 1) * n) / (2 ^ 53 * d) := by
      field_simp
      ring
    rw [this]
    exact div_nonneg (sub_nonneg.2 hl') (by positivity)
  · rw [← sub_nonneg]
    have : (1 + 1 / 2 ^ 53) * ((n : ℚ) / d) - r
        = ((2 ^ 53 + 1) * n - 2 ^ 53 * (r * d)) / (2 ^ 53 * d) := by
      field_simp
      ring
    rw [this]
    exact div_nonneg (sub_nonneg.2 hu') (by positivity)

/-- The computation `Math.round(c * (a / b))` on exact integers below `2 ^ 53`:
the result is the integer `⌊v + 1/2⌋` where `v`, the computed product, is
within the relative error `(1 ± 2 ^ (-53)) ^ 2` of the exact `c * a / b`. -/
theorem scaled_spec (a b c : Nat) (ha : 0 < a) (hb : 0 < b) (hc : 0 < c)
    (ha53 : a < 2 ^ 53) (hb53 : b < 2 ^ 53) (hc53 : c < 2 ^ 53) :
    ∃ v : ℚ, mathRound ((JSNum.int c).mul ((JSNum.int a).div (JSNum.int b)))
        = JSNum.int ⌊v + 1 / 2⌋₊
      ∧ (1 - 1 / 2 ^ 53) ^ 2 * ((c * a : ℚ) / b) ≤ v
      ∧ v ≤ (1 + 1 / 2 ^ 53) ^ 2 * ((c * a : ℚ) / b) := by
  have hu := unit_pos
  have hbu : 0 < b * unit := Nat.mul_pos hb hu
  -- the quotient `a / b`
  have hlo1 : 2 ^ 52 * (b * unit) ≤ a * unit * unit := by
    have h1 : 2 ^ 52 * b ≤ 2 ^ 52 * 2 ^ 53 := Nat.mul_le_mul_left _ (le_of_lt hb53)
    have h2 : 2 ^ 52 * 2 ^ 53 ≤ a * unit := by
      rw [unit_eq]
      calc 2 ^ 52 * 2 ^ 53 ≤ 1 * 2 ^ 1074 := by norm_num
        _ ≤ a * 2 ^ 1074 := Nat.mul_le_mul_right _ ha
    calc 2 ^ 52 * (b * unit) = 2 ^ 52 * b * unit := by ring
      _ ≤ a * unit * unit := Nat.mul_le_mul_right _ (le_trans h1 h2)
  have hhi1 : a * unit * unit < 2 ^ 2097 * (b * unit) := by
    have h1 : a * unit < 2 ^ 2097 * b := by
      rw [unit_eq]
      calc a * 2 ^ 1074 < 2 ^ 53 * 2 ^ 1074 := Nat.mul_lt_mul_of_pos_right ha53 (by positivity)
        _ ≤ 2 ^ 2097 * 1 := by norm_num
        _ ≤ 2 ^ 2097 * b := Nat.mul_le_mul_left _ hb
    calc a * unit * unit < 2 ^ 2097 * b * unit := Nat.mul_lt_mul_of_pos_right h1 hu
      _ = 2 ^ 2097 * (b * unit) := by ring
  obtain ⟨r1, hr1, hr1u, hr1l⟩ := roundToDouble_spec (a * unit * unit) (b * unit) hbu hlo1 hhi1
  obtain ⟨hq1l, hq1u⟩ := rel_bounds _ _ _ hbu hr1u hr1l
  have hU : (0 : ℚ) < unit := by exact_mod_cast hu
  have hA : (1 : ℚ) ≤ a := by exact_mod_cast ha
  have hA53 : (a : ℚ) ≤ 2 ^ 53 := by exact_mod_cast le_of_lt ha53
  have hB : (1 : ℚ) ≤ b := by exact_mod_cast hb
  have hB53 : (b : ℚ) ≤ 2 ^ 53 := by exact_mod_cast le_of_lt hb53
  have hC : (1 : ℚ) ≤ c := by exact_mod_cast hc
  have hC53 : (c : ℚ) ≤ 2 ^ 53 := by exact_mod_cast le_of_lt hc53
  have hx1 : (((a * unit * unit : Nat) : ℚ) / ((b * unit : Nat) : ℚ)) = a * unit / b := by
    push_cast
    field_simp
    ring
  rw [hx1] at hq1l hq1u
  have hUbig : (2 : ℚ) ^ 1074 = unit := by rw [unit_eq]; norm_cast
  -- the size of the rounded quotient
  have hx1lo : (2 : ℚ) ^ 1021 ≤ a * unit / b := by
    rw [le_div_iff₀ (by linarith)]
    calc (2 : ℚ) ^ 1021 * b ≤ 2 ^ 1021 * 2 ^ 53 := by gcongr
      _ = 1 * 2 ^ 1074 := by norm_num
      _ ≤ a * unit := by rw [hUbig]; gcongr
  have hx1hi : (a * unit / b : ℚ) ≤ 2 ^ 1127 := by
    rw [div_le_iff₀ (by linarith)]
    calc (a : ℚ) * unit ≤ 2 ^ 53 * unit := by gcongr
      _ = 2 ^ 1127 * 1 := by rw [← hUbig]; norm_num
      _ ≤ 2 ^ 1127 * b := by gcongr
  have hr1lo : (2 : ℚ) ^ 1020 ≤ r1 := by
    refine le_trans ?_ hq1l
    calc (2 : ℚ) ^ 1020 = (1 / 2) * 2 ^ 1021 := by norm_num
      _ ≤ (1 - 1 / 2 ^ 53) * 2 ^ 1021 := by gcongr; norm_num
      _ ≤ (1 - 1 / 2 ^ 53) * (a * unit / b) := by
        apply mul_le_mul_of_nonneg_left hx1lo; norm_num
  have hr1hi : (r1 : ℚ) ≤ 2 ^ 1128 := by
    refine le_trans hq1u ?_
    calc (1 + 1 / 2 ^ 53) * (a * unit / b : ℚ) ≤ 2 * 2 ^ 1127 := by
          apply mul_le_mul _ hx1hi (le_trans (by positivity) hx1lo) (by norm_num)
          norm_num
      _ = 2 ^ 1128 := by norm_num
  -- the product `c * (a / b)`
  have hlo2 : 2 ^ 52 * unit ≤ c * unit * r1 := by
    have h1 : 2 ^ 52 ≤ r1 := by
      have : ((2 : Nat) ^ 52 : ℚ) ≤ r1 :=
        le_trans (by norm_num) hr1lo
      exact_mod_cast this
    calc 2 ^ 52 * unit ≤ r1 * unit := Nat.mul_le_mul_right _ h1
      _ = 1 * unit * r1 := by ring
      _ ≤ c * unit * r1 := Nat.mul_le_mul_right _ (Nat.mul_le_mul_right _ hc)
  have hhi2 : c * unit * r1 < 2 ^ 2097 * unit := by
    have h1 : r1 ≤ 2 ^ 1128 := by
      have : (r1 : ℚ) ≤ ((2 : Nat) ^ 1128 : ℚ) := le_trans hr1hi (by norm_num)
      exact_mod_cast this
    have h2 : c * r1 < 2 ^ 2097 := by
      calc c * r1 ≤ c * 2 ^ 1128 := Nat.mul_le_mul_left _ h1
        _ < 2 ^ 53 * 2 ^ 1128 := Nat.mul_lt_mul_of_pos_right hc53 (by positivity)
        _ ≤ 2 ^ 2097 := by norm_num
    calc c * unit * r1 = c * r1 * unit := by ring
      _ < 2 ^ 2097 * unit := Nat.mul_lt_mul_of_pos_right h2 hu
  obtain ⟨r2, hr2, hr2u, hr2l⟩ := roundToDouble_spec (c * unit * r1) unit hu hlo2 hhi2
  obtain ⟨hq2l, hq2u⟩ := rel_bounds _ _ _ hu hr2u hr2l
  have hx2 : (((c * unit * r1 : Nat) : ℚ) / ((unit : Nat) : ℚ)) = c * r1 := by
    push_cast
    field_simp
    ring
  rw [hx2] at hq2l hq2u
  refine ⟨(r2 : ℚ) / unit, ?_, ?_, ?_⟩
  · have hfloor : ⌊(r2 : ℚ) / unit + 1 / 2⌋₊ = (2 * r2 + unit) / (2 * unit) := by
      have : (r2 : ℚ) / unit + 1 / 2 = ((2 * r2 + unit : Nat) : ℚ) / ((2 * unit : Nat) : ℚ) := by
        push_cast
        field_simp
        ring
      rw [this, Nat.floor_div_eq_div]
    have hbne : ¬ (b * unit = 0) := Nat.pos_iff_ne_zero.1 hbu
    simp only [JSNum.int, JSNum.div, JSNum.mul, hbne, if_false, JSNum.ofRatio, hr1, hr2,
      Bool.xor_false, mathRound, hfloor]
  · calc ((1 : ℚ) - 1 / 2 ^ 53) ^ 2 * ((c * a : ℚ) / b)
        = ((1 : ℚ) - 1 / 2 ^ 53) * (c * ((1 - 1 / 2 ^ 53) * (a * unit / b))) / unit := by
          field_simp
          ring
      _ ≤ ((1 : ℚ) - 1 / 2 ^ 53) * (c * r1) / unit := by
          apply div_le_div_of_nonneg_right _ (le_of_lt hU)
          apply mul_le_mul_of_nonneg_left _ (by norm_num)
          exact mul_le_mul_of_nonneg_left hq1l (by linarith)
      _ ≤ r2 / unit := div_le_div_of_nonneg_right hq2l (le_of_lt hU)
  · calc (r2 : ℚ) / unit ≤ ((1 : ℚ) + 1 / 2 ^ 53) * (c * r1) / unit :=
          div_le_div_of_nonneg_right hq2u (le_of_lt hU)
      _ ≤ ((1 : ℚ) + 1 / 2 ^ 53) * (c * ((1 + 1 / 2 ^ 53) * (a * unit / b))) / unit := by
          apply div_le_div_of_nonneg_right _ (le_of_lt hU)
          apply mul_le_mul_of_nonneg_left _ (by norm_num)
          exact mul_le_mul_of_nonneg_left hq1u (by linarith)
      _ = ((1 : ℚ) + 1 / 2 ^ 53) ^ 2 * ((c * a : ℚ) / b) := by
          field_simp
          ring


theorem int_injective (h k : Nat) (heq : JSNum.int h = JSNum.int k) : h = k := by
  unfold JSNum.int at heq
  injection heq with _ hu
  exact Nat.eq_of_mul_eq_mul_right unit_pos hu

theorem onWidthInput_eq (s : ImageResizer) (W H w : Nat)
    (hm : s.maintainAspectRatio = true) (hd : s.originalDimensions = some ⟨W, H⟩)
    (hwi : s.widthInput = some (JSNum.ofNat w)) :
    (onWidthInput s).heightInput
      = some (mathRound ((JSNum.ofNat w).mul ((JSNum.ofNat H).div (JSNum.ofNat W)))) := by
  simp [onWidthInput, updateHeightFromWidth, hm, hd, hwi]

theorem onHeightInput_eq (s : ImageResizer) (W H h : Nat)
    (hm : s.maintainAspectRatio = true) (hd : s.originalDimensions = some ⟨W, H⟩)
    (hhi : s.heightInput = some (JSNum.ofNat h)) :
    (onHeightInput s).widthInput
      = some (mathRound ((JSNum.ofNat h).mul ((JSNum.ofNat W).div (JSNum.ofNat H)))) := by
  simp [onHeightInput, updateWidthFromHeight, hm, hd, hhi]

theorem scaled_within_one (a b c : Nat) (ha : 0 < a) (hb : 0 < b) (hc : 0 < c)
    (ha53 : a < 2 ^ 53) (hb53 : b < 2 ^ 53) (hc53 : c < 2 ^ 53)
    (hsmall : c * a ≤ 2 ^ 51 * b) :
    ∃ h : Nat, mathRound ((JSNum.ofNat c).mul ((JSNum.ofNat a).div (JSNum.ofNat b)))
        = JSNum.int h
      ∧ |(h : ℤ) - round ((c * a : ℚ) / b)| ≤ 1 := by
  obtain ⟨v, hv, hvl, hvu⟩ := scaled_spec a b c ha hb hc ha53 hb53 hc53
  rw [ofNat_eq_int a ha53, ofNat_eq_int b hb53, ofNat_eq_int c hc53]
  refine ⟨⌊v + 1 / 2⌋₊, hv, ?_⟩
  have hB : (0 : ℚ) < b := by exact_mod_cast hb
  have hx0 : (0 : ℚ) ≤ (c * a : ℚ) / b := by positivity
  have hx51 : (c * a : ℚ) / b ≤ 2 ^ 51 := by
    rw [div_le_iff₀ hB]
    exact_mod_cast hsmall
  have hv0 : 0 ≤ v := le_trans (mul_nonneg (by norm_num) hx0) hvl
  have h1 : v ≤ (c * a : ℚ) / b + 1 := by
    norm_num at hvl hvu ⊢
    linarith
  have h2 : (c * a : ℚ) / b ≤ v + 1 := by
    norm_num at hvl hvu ⊢
    linarith
  rw [Int.natCast_floor_eq_floor (by linarith), round_eq, abs_le]
  constructor
  · have : ⌊(c * a : ℚ) / b + 1 / 2⌋ ≤ ⌊v + 1 / 2⌋ + 1 := by
      rw [← Int.floor_add_one]
      exact Int.floor_mono (by linarith)
    linarith
  · have : ⌊v + 1 / 2⌋ ≤ ⌊(c * a : ℚ) / b + 1 / 2⌋ + 1 := by
      rw [← Int.floor_add_one]
      exact Int.floor_mono (by linarith)
    linarith

theorem scaled_at_least_one (a b c : Nat) (ha : 0 < a) (hb : 0 < b) (hc : 0 < c)
    (ha53 : a < 2 ^ 53) (hb53 : b < 2 ^ 53) (hc53 : c < 2 ^ 53)
    (hbig : b ≤ c * a) :
    ∃ h : Nat, 1 ≤ h ∧ mathRound ((JSNum.ofNat c).mul ((JSNum.ofNat a).div (JSNum.ofNat b)))
        = JSNum.int h := by
  obtain ⟨v, hv, hvl, _⟩ := scaled_spec a b c ha hb hc ha53 hb53 hc53
  rw [ofNat_eq_int a ha53, ofNat_eq_int b hb53, ofNat_eq_int c hc53]
  refine ⟨⌊v + 1 / 2⌋₊, ?_, hv⟩
  have hB : (0 : ℚ) < b := by exact_mod_cast hb
  have hx1 : (1 : ℚ) ≤ (c * a : ℚ) / b := by
    rw [le_div_iff₀ hB, one_mul]
    exact_mod_cast hbig
  have hv1 : (1 : ℚ) / 2 ≤ v := by
    norm_num at hvl ⊢
    linarith
  apply Nat.le_floor
  push_cast
  linarith

/-- C1, the input that refutes it: for a 3×1 original and the entered width
`2 ^ 60` the height field is set to 384307168202282304, while the exactly
rounded value of `2 ^ 60 / 3` is 384307168202282325. -/
theorem updateHeightFromWidth_large_width :
    (onWidthInput ⟨some ⟨3, 1⟩, some (JSNum.ofNat 1152921504606846976), none, "jpeg", true,
        false⟩).heightInput = some (JSNum.int 384307168202282304)
      ∧ round (((1152921504606846976 : Nat) * (1 : Nat) : ℚ) / (3 : Nat)) = 384307168202282325
      ∧ ¬ ∃ h : Nat,
          (onWidthInput ⟨some ⟨3, 1⟩, some (JSNum.ofNat 1152921504606846976), none, "jpeg",
            true, false⟩).heightInput = some (JSNum.int h)
          ∧ |(h : ℤ) - round (((1152921504606846976 : Nat) * (1 : Nat) : ℚ) / (3 : Nat))| ≤ 1 := by
  have hval : (onWidthInput ⟨some ⟨3, 1⟩, some (JSNum.ofNat 1152921504606846976), none, "jpeg",
      true, false⟩).heightInput = some (JSNum.int 384307168202282304) := by decide
  have hround : round (((1152921504606846976 : Nat) * (1 : Nat) : ℚ) / (3 : Nat))
      = 384307168202282325 := by
    rw [round_eq, Int.floor_eq_iff]
    constructor <;> norm_num
  refine ⟨hval, hround, ?_⟩
  rintro ⟨h, hh, hab⟩
  rw [hval] at hh
  have hk : 384307168202282304 = h := int_injective _ _ (Option.some.inj hh)
  rw [hround, ← hk, abs_le] at hab
  norm_num at hab

/-- C1 as amended: for original dimensions `W × H` and an entered width `w`,
all positive integers below `2 ^ 53` with `w * H / W` at most `2 ^ 51`, the
width listener with maintain-aspect-ratio on sets the height field to an
integer that differs by at most 1 from the exactly rounded `w * H / W`; for
800×600 and `w = 400` it is 300. -/
theorem updateHeightFromWidth_within_one (W H w : Nat) (s : ImageResizer)
    (hW : 0 < W) (hH : 0 < H) (hw : 0 < w)
    (hW53 : W < 2 ^ 53) (hH53 : H < 2 ^ 53) (hw53 : w < 2 ^ 53)
    (hsmall : w * H ≤ 2 ^ 51 * W)
    (hm : s.maintainAspectRatio = true) (hd : s.originalDimensions = some ⟨W, H⟩)
    (hwi : s.widthInput = some (JSNum.ofNat w)) :
    (∃ h : Nat, (onWidthInput s).heightInput = some (JSNum.int h)
        ∧ |(h : ℤ) - round ((w * H : ℚ) / W)| ≤ 1)
      ∧ (onWidthInput ⟨some ⟨800, 600⟩, some (JSNum.ofNat 400), none, "jpeg", true,
          false⟩).heightInput = some (JSNum.int 300) := by
  refine ⟨?_, by decide⟩
  obtain ⟨h, hh, hab⟩ := scaled_within_one H W w hH hW hw hH53 hW53 hw53 hsmall
  exact ⟨h, by rw [onWidthInput_eq s W H w hm hd hwi, hh], hab⟩

theorem updateHeightFromWidth_within_one_witness :
    (∃ h : Nat, (onWidthInput ⟨some ⟨1920, 1080⟩, some (JSNum.ofNat 1000), none, "jpeg", true,
          false⟩).heightInput = some (JSNum.int h)
        ∧ |(h : ℤ) - round (((1000 : Nat) * (1080 : Nat) : ℚ) / (1920 : Nat))| ≤ 1)
      ∧ (onWidthInput ⟨some ⟨800, 600⟩, some (JSNum.ofNat 400), none, "jpeg", true,
          false⟩).heightInput = some (JSNum.int 300) :=
  updateHeightFromWidth_within_one 1920 1080 1000
    ⟨some ⟨1920, 1080⟩, some (JSNum.ofNat 1000), none, "jpeg", true, false⟩
    (by decide) (by decide) (by decide) (by decide) (by decide) (by decide) (by decide)
    rfl rfl rfl

/-- C9, the input that refutes it: for a 1000×1 original and the entered width
1 the computed height is 0, and for a 1×1000 original and the entered height
1 the computed width is 0. -/
theorem computed_dimension_zero :
    (onWidthInput ⟨some ⟨1000, 1⟩, some (JSNum.ofNat 1), none, "jpeg", true,
        false⟩).heightInput = some (JSNum.int 0)
      ∧ (onHeightInput ⟨some ⟨1, 1000⟩, none, some (JSNum.ofNat 1), "jpeg", true,
        false⟩).widthInput = some (JSNum.int 0)
      ∧ ¬ ∃ k : Nat, 1 ≤ k
          ∧ (onWidthInput ⟨some ⟨1000, 1⟩, some (JSNum.ofNat 1), none, "jpeg", true,
            false⟩).heightInput = some (JSNum.int k) := by
  have hval : (onWidthInput ⟨some ⟨1000, 1⟩, some (JSNum.ofNat 1), none, "jpeg", true,
      false⟩).heightInput = some (JSNum.int 0) := by decide
  refine ⟨hval, by decide, ?_⟩
  rintro ⟨k, hk, hh⟩
  rw [hval] at hh
  have h0 : 0 = k := int_injective _ _ (Option.some.inj hh)
  omega

/-- C9 as amended: for positive original dimensions `W × H` and a positive
requested size `n`, all below `2 ^ 53`, with maintain-aspect-ratio on: when
`n` is the entered width and `W ≤ n * H`, the height computed by the width
listener is an integer that is at least 1; when `n` is the entered height and
`H ≤ n * W`, the width computed by the height listener is an integer that is
at least 1.  Each part reads only its own field. -/
theorem computed_dimension_at_least_one (W H n : Nat) (s : ImageResizer)
    (hW : 0 < W) (hH : 0 < H) (hn : 0 < n)
    (hW53 : W < 2 ^ 53) (hH53 : H < 2 ^ 53) (hn53 : n < 2 ^ 53)
    (hm : s.maintainAspectRatio = true) (hd : s.originalDimensions = some ⟨W, H⟩) :
    (s.widthInput = some (JSNum.ofNat n) → W ≤ n * H →
        ∃ k : Nat, 1 ≤ k ∧ (onWidthInput s).heightInput = some (JSNum.int k))
      ∧ (s.heightInput = some (JSNum.ofNat n) → H ≤ n * W →
        ∃ k : Nat, 1 ≤ k ∧ (onHeightInput s).widthInput = some (JSNum.int k)) := by
  constructor
  · intro hwi hbig
    obtain ⟨k, hk, hr⟩ := scaled_at_least_one H W n hH hW hn hH53 hW53 hn53 hbig
    exact ⟨k, hk, by rw [onWidthInput_eq s W H n hm hd hwi, hr]⟩
  · intro hhi hbig
    obtain ⟨k, hk, hr⟩ := scaled_at_least_one W H n hW hH hn hW53 hH53 hn53 hbig
    exact ⟨k, hk, by rw [onHeightInput_eq s W H n hm hd hhi, hr]⟩

theorem computed_dimension_at_least_one_witness :
    (∃ k : Nat, 1 ≤ k ∧ (onWidthInput ⟨some ⟨3, 1000⟩, some (JSNum.ofNat 2),
        some (JSNum.ofNat 333), "jpeg", true, false⟩).heightInput = some (JSNum.int k))
      ∧ (∃ k : Nat, 1 ≤ k ∧ (onWidthInput ⟨some ⟨3, 1000⟩, some (JSNum.ofNat 2),
        none, "jpeg", true, false⟩).heightInput = some (JSNum.int k))
      ∧ (∃ k : Nat, 1 ≤ k ∧ (onHeightInput ⟨some ⟨1000, 3⟩, none, some (JSNum.ofNat 2),
        "jpeg", true, false⟩).widthInput = some (JSNum.int k)) :=
  ⟨(computed_dimension_at_least_one 3 1000 2
      ⟨some ⟨3, 1000⟩, some (JSNum.ofNat 2), some (JSNum.ofNat 333), "jpeg", true, false⟩
      (by decide) (by decide) (by decide) (by decide) (by decide) (by decide) rfl rfl).1
      rfl (by decide),
    (computed_dimension_at_least_one 3 1000 2
      ⟨some ⟨3, 1000⟩, some (JSNum.ofNat 2), none, "jpeg", true, false⟩
      (by decide) (by decide) (by decide) (by decide) (by decide) (by decide) rfl rfl).1
      rfl (by decide),
    (computed_dimension_at_least_one 1000 3 2
      ⟨some ⟨1000, 3⟩, none, some (JSNum.ofNat 2), "jpeg", true, false⟩
      (by decide) (by decide) (by decide) (by decide) (by decide) (by decide) rfl rfl).2
      rfl (by decide)⟩

end ResizeImage
